import Mathlib

/-!
# Verification of the journal frontend core

Shallow embedding of the core logic of `src/frontend/src/api.ts` (the
Document Composition & Cross-Reference Engine of the journal app):
sequence materialization and reordering, search highlighting, regex
escaping, reference resolution, block rendering of index lists, route
parsing, batched view loading, and the edit-session navigation guard.

JavaScript strings are modelled as `List Char` (wrapped in `String` at the
boundaries), JS numbers as `JsNum` (a rational for finite values, plus NaN
and signed infinity; the float64 nature of JS numbers is not observable in
any of the properties proved here, which only evaluate small integers and
simple decimals), and fallible collaborator calls as `Except`.
-/

namespace JournalApp

/-- An article as consumed by the frontend (`Article` in api.ts), restricted
to the fields the embedded logic reads: `id`, `title`, `content_text`. -/
structure Article where
  id : Int
  title : String
  content_text : String
deriving DecidableEq, Repr

/-- A journal (`Journal` in api.ts), restricted to the fields the embedded
logic stores. -/
structure Journal where
  id : Int
  title : String
  slug : String
deriving DecidableEq, Repr

/-! ## escapeRegExp (api.ts lines 866-868)

```
function escapeRegExp(value: string): string {
  return value.replace(/[.*+?^${}()|[\]\\]/g, '\$&')
}
```

The regex is a single character class matched globally, so `replace`
substitutes each metacharacter occurrence independently.  The replacement
is the JS string literal `'\$&'`: `\$` is not a recognized escape, so the
*value* of that literal is the two-character string `$&`, which as a
replacement pattern denotes the matched substring itself. -/

/-- The characters of the class `[.*+?^${}()|[\]\\]`. -/
def regexMetachars : List Char :=
  ['.', '*', '+', '?', '^', '$', '\x7b', '\x7d', '(', ')', '|', '[', ']', '\\']

/-- Runtime value of the JS string literal `'\$&'` (the backslash is dropped
by JS string-literal semantics, leaving `$&`). -/
def replacementValue : List Char := ['$', '&']

/-- JS `String.replace` replacement-pattern expansion: `$&` inserts the
matched substring `m`; every other character is literal. -/
def expandReplacement (m : List Char) : List Char → List Char
  | '$' :: '&' :: rest => m ++ expandReplacement m rest
  | c :: rest => c :: expandReplacement m rest
  | [] => []

/-- Core of `escapeRegExp`: global replace of each metacharacter by the
expansion of the replacement pattern. -/
def escapeRegExpChars : List Char → List Char
  | [] => []
  | c :: rest =>
    (if regexMetachars.contains c then expandReplacement [c] replacementValue else [c])
      ++ escapeRegExpChars rest

/-- `escapeRegExp` from api.ts. -/
def escapeRegExp (value : String) : String :=
  ⟨escapeRegExpChars value.data⟩

/-- A correct escaper, modelled from the spec's words ("correctly escape
query text when used to build a matching pattern"): prefix every
metacharacter with a backslash.  Used only to exhibit the divergence. -/
def specEscapeRegExp (value : String) : String :=
  ⟨value.data.flatMap (fun c => if regexMetachars.contains c then ['\\', c] else [c])⟩

theorem expandReplacement_value (m : List Char) :
    expandReplacement m replacementValue = m := by
  simp [expandReplacement, replacementValue]

theorem escapeRegExpChars_eq_self (l : List Char) : escapeRegExpChars l = l := by
  induction l with
  | nil => rfl
  | cons c rest ih =>
    by_cases h : regexMetachars.contains c <;>
      simp [escapeRegExpChars, h, expandReplacement_value, ih]

/-- C2: the code-level `escapeRegExp` is the identity function — the
replacement `'\$&'` re-inserts the matched metacharacter without a
backslash — so the query is *not* escaped before pattern construction:
for the query `"("` the built pattern source is `"(("`, invalid regex
syntax, and metacharacters act as pattern syntax whenever the pattern
compiles.  A correct escaper would map `"("` to `"\("`. -/
theorem escapeRegExp_is_identity :
    (∀ s : String, escapeRegExp s = s) ∧
      escapeRegExp "(" = "(" ∧
      escapeRegExp "(" ≠ specEscapeRegExp "(" := by
  refine ⟨fun s => ?_, by decide, by decide⟩
  show (⟨escapeRegExpChars s.data⟩ : String) = s
  rw [escapeRegExpChars_eq_self]

/-! ## Sequence Engine (JournalDetailsPage, api.ts lines 970-1011)

```
const sequenceArticles = useMemo(() => {
  const byId = new Map(articles.map((item) => [item.id, item]))
  const ordered = sequenceIds
    .map((id) => byId.get(id))
    .filter((item): item is Article => Boolean(item))
  const missing = articles.filter((item) => !sequenceIds.includes(item.id))
  return [...ordered, ...missing]
}, [articles, sequenceIds])
```

`new Map(entries)` keeps the *last* entry for a duplicated key, so
`byId.get` is `find?` over the reversed article list. -/

/-- `byId.get id` where `byId = new Map(articles.map(item => [item.id, item]))`. -/
def byIdGet (articles : List Article) (i : Int) : Option Article :=
  articles.reverse.find? (fun a => a.id == i)

/-- The materialized display order `sequenceArticles` (the spec's
`materialize(persistedIds, liveArticles)`). -/
def sequenceArticles (sequenceIds : List Int) (articles : List Article) : List Article :=
  let ordered := (sequenceIds.map (fun i => byIdGet articles i)).filterMap id
  let missing := articles.filter (fun a => !sequenceIds.contains a.id)
  ordered ++ missing

/-! ### moveSequenceItem (api.ts lines 996-1011)

```
const moveSequenceItem = (index: number, direction: -1 | 1) => {
  setSequenceIds((current) => {
    const orderedIds = [
      ...current.filter((id) => articles.some((article) => article.id === id)),
      ...articles.map((article) => article.id).filter((id) => !current.includes(id)),
    ]
    const nextIndex = index + direction
    if (index < 0 || index >= orderedIds.length || nextIndex < 0 || nextIndex >= orderedIds.length) {
      return orderedIds
    }
    const copy = [...orderedIds]
    const [moved] = copy.splice(index, 1)
    copy.splice(nextIndex, 0, moved)
    return copy
  })
}
``` -/

/-- The reconciliation step at the top of `moveSequenceItem`: stored ids
filtered to live ones, followed by live ids not yet stored. -/
def reconcileIds (articles : List Article) (current : List Int) : List Int :=
  current.filter (fun i => articles.any (fun a => a.id == i))
    ++ (articles.map (fun a => a.id)).filter (fun i => !current.contains i)

/-- `copy.splice(i, 1)` followed by `copy.splice(j, 0, moved)`: remove the
element at `i`, re-insert it at position `j` of the shortened list.  The
`none` branch is unreachable under the caller's bounds guard. -/
def spliceMove {α : Type} (l : List α) (i j : Nat) : List α :=
  match l[i]? with
  | none => l
  | some x =>
    let removed := l.take i ++ l.drop (i + 1)
    removed.take j ++ x :: removed.drop j

/-- The state updater body of `moveSequenceItem`, as a pure function of the
live `articles`, the stored `current` ids, the `index` and the `direction`. -/
def moveSequenceItem (articles : List Article) (current : List Int)
    (index direction : Int) : List Int :=
  let orderedIds := reconcileIds articles current
  let nextIndex := index + direction
  if index < 0 ∨ (orderedIds.length : Int) ≤ index
      ∨ nextIndex < 0 ∨ (orderedIds.length : Int) ≤ nextIndex then
    orderedIds
  else
    spliceMove orderedIds index.toNat nextIndex.toNat

/-- Swap of the adjacent elements at positions `i` and `i+1`; out-of-range
indices leave the list unchanged.  Proof-side normal form for the two
adjacent `spliceMove`s. -/
def swapAdj {α : Type} : List α → Nat → List α
  | x :: y :: rest, 0 => y :: x :: rest
  | x :: rest, n + 1 => x :: swapAdj rest n
  | l, _ => l

theorem swapAdj_nil {α : Type} (i : Nat) : swapAdj ([] : List α) i = [] := by
  cases i <;> rfl

theorem swapAdj_cons_succ {α : Type} (x : α) (rest : List α) (n : Nat) :
    swapAdj (x :: rest) (n + 1) = x :: swapAdj rest n := by
  cases rest <;> rfl

theorem swapAdj_swapAdj {α : Type} : ∀ (l : List α) (i : Nat), swapAdj (swapAdj l i) i = l := by
  intro l
  induction l with
  | nil => intro i; simp [swapAdj_nil]
  | cons x rest ih =>
    intro i
    cases i with
    | zero =>
      cases rest with
      | nil => rfl
      | cons y rest' => rfl
    | succ n => simp [swapAdj_cons_succ, ih]

theorem swapAdj_perm {α : Type} : ∀ (l : List α) (i : Nat), List.Perm (swapAdj l i) l := by
  intro l
  induction l with
  | nil => intro i; simp [swapAdj_nil]
  | cons x rest ih =>
    intro i
    cases i with
    | zero =>
      cases rest with
      | nil => exact List.Perm.refl _
      | cons y rest' => exact List.Perm.swap x y rest'
    | succ n =>
      rw [swapAdj_cons_succ]
      exact List.Perm.cons x (ih n)

theorem swapAdj_length {α : Type} (l : List α) (i : Nat) :
    (swapAdj l i).length = l.length :=
  (swapAdj_perm l i).length_eq

/-- `swapAdj` really is the adjacent swap, stated through `take`/`drop`. -/
theorem swapAdj_eq_take_drop {α : Type} :
    ∀ (l : List α) (i : Nat) (h : i + 1 < l.length),
      swapAdj l i = l.take i ++ l[i + 1] :: l[i] :: l.drop (i + 2) := by
  intro l
  induction l with
  | nil => intro i h; simp at h
  | cons x rest ih =>
    intro i h
    cases i with
    | zero =>
      cases rest with
      | nil => simp at h
      | cons y rest' => rfl
    | succ n =>
      have h' : n + 1 < rest.length := by simpa using h
      simp [swapAdj_cons_succ, ih n h', List.take_succ_cons, List.drop_succ_cons]

theorem spliceMove_up {α : Type} :
    ∀ (l : List α) (i : Nat), i + 1 < l.length → spliceMove l i (i + 1) = swapAdj l i := by
  intro l
  induction l with
  | nil => intro i h; simp at h
  | cons x rest ih =>
    intro i h
    cases i with
    | zero =>
      cases rest with
      | nil => simp at h
      | cons y rest' => rfl
    | succ n =>
      have h' : n + 1 < rest.length := by simpa using h
      have hrec := ih n h'
      have hv : rest[n]? = some rest[n] :=
        List.getElem?_eq_getElem (by omega)
      rw [swapAdj_cons_succ, ← hrec]
      simp only [spliceMove, List.getElem?_cons_succ, hv, List.take_succ_cons,
        List.drop_succ_cons, List.cons_append]

theorem spliceMove_down {α : Type} :
    ∀ (l : List α) (i : Nat), i + 1 < l.length → spliceMove l (i + 1) i = swapAdj l i := by
  intro l
  induction l with
  | nil => intro i h; simp at h
  | cons x rest ih =>
    intro i h
    cases i with
    | zero =>
      cases rest with
      | nil => simp at h
      | cons y rest' => simp [spliceMove, swapAdj]
    | succ n =>
      have h' : n + 1 < rest.length := by simpa using h
      have hrec := ih n h'
      have hv : rest[n + 1]? = some rest[n + 1] :=
        List.getElem?_eq_getElem (by omega)
      rw [swapAdj_cons_succ, ← hrec]
      simp only [spliceMove, List.getElem?_cons_succ, hv, List.take_succ_cons,
        List.drop_succ_cons, List.cons_append]

/-- If the stored ids are a fixed point of reconciliation, the filter kept
everything and the appended live-ids part is empty. -/
theorem reconciled_parts {articles : List Article} {cur : List Int}
    (h : reconcileIds articles cur = cur) :
    cur.filter (fun i => articles.any (fun a => a.id == i)) = cur ∧
      (articles.map (fun a => a.id)).filter (fun i => !cur.contains i) = [] := by
  have hnil : (articles.map (fun a => a.id)).filter (fun i => !cur.contains i) = [] := by
    by_contra hne
    obtain ⟨x, hx⟩ := List.exists_mem_of_ne_nil _ hne
    have hx' := List.of_mem_filter hx
    have hxcur : x ∈ cur := by
      rw [← h]
      exact List.mem_append_right _ hx
    simp at hx'
    exact hx' hxcur
  refine ⟨?_, hnil⟩
  have h' := h
  rw [reconcileIds, hnil, List.append_nil] at h'
  exact h'

/-- Reconciliation fixed points are stable under permutation. -/
theorem reconciled_of_perm {articles : List Article} {cur cur' : List Int}
    (h : reconcileIds articles cur = cur) (hp : List.Perm cur' cur) :
    reconcileIds articles cur' = cur' := by
  obtain ⟨hfix, hnil⟩ := reconciled_parts h
  have hall := List.filter_eq_self.mp hfix
  have hlive : ∀ i ∈ articles.map (fun a => a.id), i ∈ cur := by
    intro i hi
    have := List.filter_eq_nil_iff.mp hnil i hi
    simpa using this
  have h1 : cur'.filter (fun i => articles.any (fun a => a.id == i)) = cur' :=
    List.filter_eq_self.mpr (fun i hi => hall i (hp.mem_iff.mp hi))
  have h2 : (articles.map (fun a => a.id)).filter (fun i => !cur'.contains i) = [] := by
    apply List.filter_eq_nil_iff.mpr
    intro i hi
    have : i ∈ cur' := hp.mem_iff.mpr (hlive i hi)
    simp [this]
  rw [reconcileIds, h1, h2, List.append_nil]

/-- Concrete articles used to evaluate the sequence engine. -/
def articleA : Article := ⟨1, "A", ""⟩

def articleB : Article := ⟨2, "B", ""⟩

def articleC : Article := ⟨3, "C", ""⟩

/-- C4 counterexample: with live article id 1 and stored order `[2]` (a
stale id), the boundary call `moveSequenceItem(order, 0, -1)` returns the
reconciled order `[1]`, not the input `[2]` — the claimed "no-op that
returns the input order unchanged" is false. -/
theorem moveSequenceItem_boundary_changes_input :
    moveSequenceItem [articleA] [2] 0 (-1) = [1] ∧
      moveSequenceItem [articleA] [2] 0 (-1) ≠ [2] := by
  constructor <;> decide

/-- C4 (amended): `moveSequenceItem` first reconciles the stored order
against the live articles; *on orders that are already reconciled* it
behaves as claimed: an out-of-bounds index or target index is a no-op that
returns the input unchanged, an in-bounds call swaps the element at `index`
with its neighbor in the direction, and moving down then up is the
identity. -/
theorem moveSequenceItem_reconciled_spec (articles : List Article) (cur : List Int)
    (hrec : reconcileIds articles cur = cur) :
    (∀ index direction : Int,
        (index < 0 ∨ (cur.length : Int) ≤ index
            ∨ index + direction < 0 ∨ (cur.length : Int) ≤ index + direction) →
        moveSequenceItem articles cur index direction = cur) ∧
    (∀ i : Nat, i + 1 < cur.length →
        moveSequenceItem articles cur i 1 = swapAdj cur i) ∧
    (∀ i : Nat, i + 1 < cur.length →
        moveSequenceItem articles (moveSequenceItem articles cur i 1) ((i : Int) + 1) (-1)
          = cur) := by
  have hup : ∀ i : Nat, i + 1 < cur.length →
      moveSequenceItem articles cur i 1 = swapAdj cur i := by
    intro i h
    rw [moveSequenceItem, hrec]
    rw [if_neg (by omega)]
    have h1 : (i : Int).toNat = i := by omega
    have h2 : ((i : Int) + 1).toNat = i + 1 := by omega
    rw [h1, h2, spliceMove_up cur i h]
  refine ⟨?_, hup, ?_⟩
  · intro index direction hoob
    rw [moveSequenceItem, hrec, if_pos hoob]
  · intro i h
    rw [hup i h]
    have hperm : List.Perm (swapAdj cur i) cur := swapAdj_perm cur i
    have hrec' : reconcileIds articles (swapAdj cur i) = swapAdj cur i :=
      reconciled_of_perm hrec hperm
    rw [moveSequenceItem, hrec']
    have hlen : (swapAdj cur i).length = cur.length := swapAdj_length cur i
    rw [if_neg (by rw [hlen]; omega)]
    have h1 : ((i : Int) + 1).toNat = i + 1 := by omega
    have h2 : ((i : Int) + 1 + -1).toNat = i := by omega
    rw [h1, h2, spliceMove_down (swapAdj cur i) i (by rw [hlen]; exact h),
      swapAdj_swapAdj]

/-- C4 witness: on the already-reconciled order `[1, 2]` over live articles
A(id=1), B(id=2): an out-of-bounds call is a no-op, and moving index 0 down
then index 1 up restores the order. -/
theorem moveSequenceItem_reconciled_spec_witness :
    reconcileIds [articleA, articleB] [1, 2] = [1, 2] ∧
      moveSequenceItem [articleA, articleB] [1, 2] 5 1 = [1, 2] ∧
      moveSequenceItem [articleA, articleB]
          (moveSequenceItem [articleA, articleB] [1, 2] (0 : Nat) 1) (((0 : Nat) : Int) + 1) (-1)
        = [1, 2] := by
  have h := moveSequenceItem_reconciled_spec [articleA, articleB] [1, 2] (by decide)
  exact ⟨by decide, h.1 5 1 (by decide), h.2.2 0 (by decide)⟩

/-- C9 counterexample: with the duplicated stored order `[1, 1]` over the
single live article id 1, the boundary call returns `[1, 1]` — the id of a
live article appears twice, so "contains the id of each live article
exactly once" is false for this call. -/
theorem moveSequenceItem_duplicate_ids :
    (moveSequenceItem [articleA] [1, 1] 0 (-1)).count 1 = 2 := by decide

/-- C9 (amended): when the stored ids and the live article ids are each
duplicate-free, every call to `moveSequenceItem` — in or out of bounds, for
direction `-1` or `+1` — returns a list containing the id of each live
article exactly once and no stale ids; a boundary (out-of-bounds) call
returns the reconciled order `reconcileIds articles current`, not
necessarily the previously stored list. -/
theorem moveSequenceItem_reconciles (articles : List Article) (current : List Int)
    (index direction : Int)
    (hcur : current.Nodup) (hids : (articles.map (fun a => a.id)).Nodup)
    (hdir : direction = -1 ∨ direction = 1) :
    (∀ a ∈ articles, (moveSequenceItem articles current index direction).count a.id = 1) ∧
    (∀ i ∈ moveSequenceItem articles current index direction,
        i ∈ articles.map (fun a => a.id)) ∧
    ((index < 0 ∨ ((reconcileIds articles current).length : Int) ≤ index
        ∨ index + direction < 0
        ∨ ((reconcileIds articles current).length : Int) ≤ index + direction) →
      moveSequenceItem articles current index direction = reconcileIds articles current) := by
  have hperm : List.Perm (moveSequenceItem articles current index direction)
      (reconcileIds articles current) := by
    rw [moveSequenceItem]
    by_cases hoob : index < 0 ∨ ((reconcileIds articles current).length : Int) ≤ index
        ∨ index + direction < 0
        ∨ ((reconcileIds articles current).length : Int) ≤ index + direction
    · rw [if_pos hoob]
    · rw [if_neg hoob]
      push_neg at hoob
      obtain ⟨h1, h2, h3, h4⟩ := hoob
      rcases hdir with hd | hd
      · subst hd
        have hi : index.toNat = (index + -1).toNat + 1 := by omega
        have hlt : (index + -1).toNat + 1 < (reconcileIds articles current).length := by
          omega
        rw [hi, spliceMove_down _ _ hlt]
        exact swapAdj_perm _ _
      · subst hd
        have hi : (index + 1).toNat = index.toNat + 1 := by omega
        have hlt : index.toNat + 1 < (reconcileIds articles current).length := by omega
        rw [hi, spliceMove_up _ _ hlt]
        exact swapAdj_perm _ _
  refine ⟨?_, ?_, ?_⟩
  · intro a ha
    rw [hperm.count_eq]
    rw [reconcileIds, List.count_append]
    by_cases hmem : a.id ∈ current
    · have hc1 : (current.filter (fun i => articles.any (fun a => a.id == i))).count a.id
          = current.count a.id := by
        apply List.count_filter
        simp only [List.any_eq_true]
        exact ⟨a, ha, by simp⟩
      have hc2 : ((articles.map (fun a => a.id)).filter
          (fun i => !current.contains i)).count a.id = 0 := by
        apply List.count_eq_zero.mpr
        intro hmem'
        have := List.of_mem_filter hmem'
        simp at this
        exact this hmem
      rw [hc1, hc2, List.count_eq_one_of_mem hcur hmem]
    · have hc1 : (current.filter (fun i => articles.any (fun a => a.id == i))).count a.id
          = 0 := by
        apply List.count_eq_zero.mpr
        intro hmem'
        exact hmem (List.mem_of_mem_filter hmem')
      have hc2 : ((articles.map (fun a => a.id)).filter
          (fun i => !current.contains i)).count a.id
          = (articles.map (fun a => a.id)).count a.id := by
        apply List.count_filter
        simp [hmem]
      rw [hc1, hc2,
        List.count_eq_one_of_mem hids (List.mem_map.mpr ⟨a, ha, rfl⟩)]
  · intro i hi
    have hi' := hperm.mem_iff.mp hi
    rw [reconcileIds, List.mem_append] at hi'
    rcases hi' with hi' | hi'
    · have := List.of_mem_filter hi'
      simp only [List.any_eq_true] at this
      obtain ⟨a, ha, hid⟩ := this
      simp only [beq_iff_eq] at hid
      exact List.mem_map.mpr ⟨a, ha, hid⟩
    · exact List.mem_of_mem_filter hi'
  · intro hoob
    rw [moveSequenceItem, if_pos hoob]

/-- C9 witness: stored `[2, 1]` with live articles A(id=1), C(id=3): the
boundary call replaces the stored list with the reconciled `[1, 3]`, which
contains each live id exactly once and no stale id. -/
theorem moveSequenceItem_reconciles_witness :
    ([2, 1] : List Int).Nodup ∧
      (∀ a ∈ [articleA, articleC], (moveSequenceItem [articleA, articleC] [2, 1] 0 (-1)).count a.id = 1) ∧
      moveSequenceItem [articleA, articleC] [2, 1] 0 (-1) = reconcileIds [articleA, articleC] [2, 1] ∧
      reconcileIds [articleA, articleC] [2, 1] = [1, 3] := by
  have h := moveSequenceItem_reconciles [articleA, articleC] [2, 1] 0 (-1)
    (by decide) (by decide) (Or.inl rfl)
  exact ⟨by decide, h.1, h.2.2 (by decide), by decide⟩

theorem byIdGet_eq_none_iff (articles : List Article) (i : Int) :
    byIdGet articles i = none ↔ ∀ a ∈ articles, a.id ≠ i := by
  simp [byIdGet, List.find?_eq_none]

theorem byIdGet_some {articles : List Article} {i : Int} {a : Article}
    (h : byIdGet articles i = some a) : a ∈ articles ∧ a.id = i := by
  refine ⟨?_, ?_⟩
  · have := List.mem_of_find?_eq_some h
    simpa using this
  · have := List.find?_some h
    simpa using this

theorem byIdGet_of_nodup {articles : List Article}
    (hids : (articles.map (fun a => a.id)).Nodup) {a : Article} (ha : a ∈ articles) :
    byIdGet articles a.id = some a := by
  induction articles with
  | nil => cases ha
  | cons b rest ih =>
    simp only [List.map_cons, List.nodup_cons] at hids
    rw [byIdGet, List.reverse_cons, List.find?_append]
    rcases List.mem_cons.mp ha with rfl | ha'
    · have hnone : rest.reverse.find? (fun x => x.id == a.id) = none := by
        apply List.find?_eq_none.mpr
        intro x hx
        simp only [beq_iff_eq]
        intro heq
        exact hids.1 (List.mem_map.mpr ⟨x, List.mem_reverse.mp hx, heq⟩)
      rw [hnone]
      simp
    · have := ih hids.2 ha'
      rw [byIdGet] at this
      rw [this]
      rfl

/-- The ids of the sequenced prefix are exactly the persisted ids filtered
to those that point at a live article, in persisted order.  Holds with no
duplicate-freeness assumptions. -/
theorem orderedIds_eq (sequenceIds : List Int) (articles : List Article) :
    ((sequenceIds.map (fun i => byIdGet articles i)).filterMap id).map (fun a => a.id)
      = sequenceIds.filter (fun i => (articles.map (fun a => a.id)).contains i) := by
  induction sequenceIds with
  | nil => rfl
  | cons i rest ih =>
    simp at ih
    cases h : byIdGet articles i with
    | none =>
      have hnone : ¬ ∃ a ∈ articles, a.id = i := by
        rintro ⟨a, ha, haid⟩
        exact (byIdGet_eq_none_iff articles i).mp h a ha haid
      simp [h, List.filter_cons, hnone, ih]
    | some a =>
      obtain ⟨ha, rfl⟩ := byIdGet_some h
      have hsome : ∃ b ∈ articles, b.id = a.id := ⟨a, ha, rfl⟩
      simp [h, List.filter_cons, hsome, ih]

theorem mem_ordered_iff {sequenceIds : List Int} {articles : List Article}
    (hids : (articles.map (fun a => a.id)).Nodup) (a : Article) :
    a ∈ (sequenceIds.map (fun i => byIdGet articles i)).filterMap id
      ↔ a ∈ articles ∧ a.id ∈ sequenceIds := by
  simp only [List.mem_filterMap, List.mem_map, id]
  constructor
  · rintro ⟨o, ⟨i, hi, rfl⟩, ho⟩
    obtain ⟨ha, rfl⟩ := byIdGet_some ho
    exact ⟨ha, hi⟩
  · rintro ⟨ha, hmem⟩
    exact ⟨some a, ⟨a.id, hmem, byIdGet_of_nodup hids ha⟩, rfl⟩

/-- C1 counterexample: with the duplicated persisted list `[1, 1]` and the
single live article A(id=1), `sequenceArticles` returns A twice — the
claimed "contains each live article exactly once" fails, so the claim is
false for arbitrary input lists. -/
theorem sequenceArticles_duplicate_ids :
    sequenceArticles [1, 1] [articleA] = [articleA, articleA] ∧
      (sequenceArticles [1, 1] [articleA]).count articleA ≠ 1 := by
  constructor <;> decide

/-- C1 (amended): when the persisted ids are pairwise distinct and the live
articles have pairwise distinct ids, the materialized order is a
permutation of the live articles containing each exactly once, whose ids
are the persisted ids filtered to live ones (their relative order
preserved, stale ids dropped) followed by the ids of the not-yet-sequenced
live articles in listing order. -/
theorem sequenceArticles_spec (sequenceIds : List Int) (articles : List Article)
    (hseq : sequenceIds.Nodup) (hids : (articles.map (fun a => a.id)).Nodup) :
    List.Perm (sequenceArticles sequenceIds articles) articles ∧
    (∀ a ∈ articles, (sequenceArticles sequenceIds articles).count a = 1) ∧
    (sequenceArticles sequenceIds articles).map (fun a => a.id)
      = sequenceIds.filter (fun i => (articles.map (fun a => a.id)).contains i)
        ++ (articles.filter (fun a => !sequenceIds.contains a.id)).map (fun a => a.id) := by
  have hart : articles.Nodup := List.Nodup.of_map _ hids
  have hperm : List.Perm (sequenceArticles sequenceIds articles) articles := by
    rw [sequenceArticles]
    have hord : List.Perm ((sequenceIds.map (fun i => byIdGet articles i)).filterMap id)
        (articles.filter (fun a => sequenceIds.contains a.id)) := by
      have hnd1 : ((sequenceIds.map (fun i => byIdGet articles i)).filterMap id).Nodup := by
        apply List.Nodup.of_map (fun a => a.id)
        rw [orderedIds_eq]
        exact hseq.filter _
      have hnd2 : (articles.filter (fun a => sequenceIds.contains a.id)).Nodup :=
        hart.filter _
      have hsub1 : (sequenceIds.map (fun i => byIdGet articles i)).filterMap id
          ⊆ articles.filter (fun a => sequenceIds.contains a.id) := by
        intro a ha
        obtain ⟨ha', hmem⟩ := (mem_ordered_iff hids a).mp ha
        rw [List.mem_filter]
        exact ⟨ha', by simpa using hmem⟩
      have hsub2 : articles.filter (fun a => sequenceIds.contains a.id)
          ⊆ (sequenceIds.map (fun i => byIdGet articles i)).filterMap id := by
        intro a ha
        rw [List.mem_filter] at ha
        exact (mem_ordered_iff hids a).mpr ⟨ha.1, by simpa using ha.2⟩
      exact (hnd1.subperm hsub1).antisymm (hnd2.subperm hsub2)
    exact (hord.append_right _).trans
      (List.filter_append_perm (fun a => sequenceIds.contains a.id) articles)
  refine ⟨hperm, ?_, ?_⟩
  · intro a ha
    rw [hperm.count_eq]
    exact List.count_eq_one_of_mem hart ha
  · rw [sequenceArticles]
    simp only [List.map_append]
    rw [orderedIds_eq]

/-- C1 witness: the spec's scenario — persisted `[2, 1]`, live articles
A(id=1), B(id=2) and newly created C(id=3) — materializes to `[B, A, C]`,
a permutation of the live articles with each counted once. -/
theorem sequenceArticles_spec_witness :
    ([2, 1] : List Int).Nodup ∧
      sequenceArticles [2, 1] [articleA, articleB, articleC]
        = [articleB, articleA, articleC] ∧
      List.Perm (sequenceArticles [2, 1] [articleA, articleB, articleC])
        [articleA, articleB, articleC] ∧
      (∀ a ∈ [articleA, articleB, articleC],
        (sequenceArticles [2, 1] [articleA, articleB, articleC]).count a = 1) := by
  have h := sequenceArticles_spec [2, 1] [articleA, articleB, articleC]
    (by decide) (by decide)
  exact ⟨by decide, by decide, h.1, h.2.1⟩

/-! ## renderHighlightedText (api.ts lines 870-882)

```
function renderHighlightedText(text: string, query: string): ReactNode {
  const search = query.trim()
  if (!search) {
    return text
  }
  const pattern = new RegExp(`(${escapeRegExp(search)})`, 'ig')
  const parts = text.split(pattern)
  return parts.map((part, index) =>
    part.toLowerCase() === search.toLowerCase() ? <mark ...>{part}</mark> : part,
  )
}
```

The output is modelled as a list of spans `(text, isMatch)`; the empty
query path returns the whole text as a single non-match span.  For a
metacharacter-free search (all searches evaluated below; see C2 for what
happens otherwise) the pattern is the literal search text with a capturing
group, matched case-insensitively, and `String.split` with a capturing
group interleaves the pieces between matches with the captured matched
text, keeping empty pieces at the boundaries.  Case-insensitivity is
modelled by `Char.toLower` folding, which agrees with JS on the inputs
evaluated here. -/

/-- The WhiteSpace/LineTerminator characters of JS `trim` (the exotic
Unicode space separators are omitted; none occurs in an evaluated input). -/
def jsWhitespaceChars : List Char :=
  [' ', '\t', '\n', '\r', '\x0b', '\x0c', '\u00A0', '\uFEFF', '\u2028', '\u2029']

def jsWhitespace (c : Char) : Bool := jsWhitespaceChars.contains c

/-- JS `String.prototype.trim`. -/
def jsTrim (l : List Char) : List Char :=
  ((l.dropWhile jsWhitespace).reverse.dropWhile jsWhitespace).reverse

/-- Case-insensitive prefix test. -/
def ciPrefix : List Char → List Char → Bool
  | [], _ => true
  | _ :: _, [] => false
  | p :: ps, c :: cs => (p.toLower == c.toLower) && ciPrefix ps cs

/-- `text.split(/(<sep>)/ig)` for the nonempty literal separator `s :: ss`:
scan left to right; at each case-insensitive occurrence emit the piece
accumulated since the previous match and the matched text (original
casing), then continue after the match. -/
def splitCaptureGo (s : Char) (ss : List Char) : List Char → List Char → List (List Char)
  | acc, [] => [acc.reverse]
  | acc, c :: rest =>
    if s.toLower == c.toLower && ciPrefix ss rest then
      acc.reverse :: (c :: rest.take ss.length)
        :: splitCaptureGo s ss [] (rest.drop ss.length)
    else
      splitCaptureGo s ss (c :: acc) rest
termination_by _acc l => l.length
decreasing_by
  · simp
    omega
  · simp

/-- `renderHighlightedText` from api.ts, as a span sequence. -/
def renderHighlightedText (text query : String) : List (String × Bool) :=
  let search := jsTrim query.data
  match search with
  | [] => [(text, false)]
  | s :: ss =>
    (splitCaptureGo s ss [] text.data).map
      (fun part => (⟨part⟩, part.map Char.toLower == (s :: ss).map Char.toLower))

/-- C6 counterexample: `highlight("abc def abc", "abc")` yields five spans,
not three — `split` with a capturing group keeps the empty non-match pieces
before the leading match and after the trailing match. -/
theorem renderHighlightedText_not_three_spans :
    renderHighlightedText "abc def abc" "abc"
        = [("", false), ("abc", true), (" def ", false), ("abc", true), ("", false)] ∧
      (renderHighlightedText "abc def abc" "abc").length ≠ 3 := by
  have heq : renderHighlightedText "abc def abc" "abc"
      = [("", false), ("abc", true), (" def ", false), ("abc", true), ("", false)] := by
    simp [renderHighlightedText, jsTrim, jsWhitespace, jsWhitespaceChars, splitCaptureGo,
      ciPrefix, String.data]
  refine ⟨heq, ?_⟩
  rw [heq]
  decide

/-- C6 (amended): the highlight transform splits on case-insensitive
occurrences of the trimmed query; `highlight("abc def abc", "abc")` yields
five spans — empty non-match, match "abc", non-match " def ", match "abc",
empty non-match (so exactly three *non-empty* spans, in the claimed order)
— and an empty or whitespace-only query yields the single non-match span
equal to the whole input text. -/
theorem renderHighlightedText_spec :
    renderHighlightedText "abc def abc" "abc"
        = [("", false), ("abc", true), (" def ", false), ("abc", true), ("", false)] ∧
      (∀ text query : String, (∀ c ∈ query.data, jsWhitespace c = true) →
        renderHighlightedText text query = [(text, false)]) := by
  constructor
  · simp [renderHighlightedText, jsTrim, jsWhitespace, jsWhitespaceChars, splitCaptureGo,
      ciPrefix, String.data]
  · intro text query h
    have htrim : jsTrim query.data = [] := by
      rw [jsTrim, List.dropWhile_eq_nil_iff.mpr h]
      rfl
    simp [renderHighlightedText, htrim]

/-- C6 witness: the whitespace-only query `" "` leaves `"xyz"` as one
non-match span. -/
theorem renderHighlightedText_spec_witness :
    (∀ c ∈ (" " : String).data, jsWhitespace c = true) ∧
      renderHighlightedText "xyz" " " = [("xyz", false)] :=
  ⟨by decide, renderHighlightedText_spec.2 "xyz" " " (by decide)⟩

/-! ## JS numbers and `Number(string)`

`JsNum` models a JS number value: finite (as a rational), `NaN`, or signed
infinity.  `jsStrToNum` models the ECMAScript `StringToNumber` conversion
on all strings the routes and block entries can contain: whitespace
trimming, the empty string as `0`, optional sign, `Infinity`, decimal
literals with optional fraction and exponent, and unsigned hexadecimal,
octal and binary literals; anything else is `NaN`. -/

inductive JsNum where
  | nan
  | inf (neg : Bool)
  | finite (q : ℚ)
deriving DecidableEq, Repr

def isDecDigit (c : Char) : Bool := '0' ≤ c && c ≤ '9'

def digitVal (c : Char) : Nat := c.toNat - '0'.toNat

def decValue (ds : List Char) : Nat :=
  ds.foldl (fun acc c => 10 * acc + digitVal c) 0

def isHexDigit (c : Char) : Bool :=
  isDecDigit c || ('a' ≤ c && c ≤ 'f') || ('A' ≤ c && c ≤ 'F')

def hexVal (c : Char) : Nat :=
  if isDecDigit c then digitVal c
  else if 'a' ≤ c && c ≤ 'f' then c.toNat - 'a'.toNat + 10
  else c.toNat - 'A'.toNat + 10

def hexValue (ds : List Char) : Nat :=
  ds.foldl (fun acc c => 16 * acc + hexVal c) 0

def isOctDigit (c : Char) : Bool := '0' ≤ c && c ≤ '7'

def octValue (ds : List Char) : Nat :=
  ds.foldl (fun acc c => 8 * acc + digitVal c) 0

def isBinDigit (c : Char) : Bool := c = '0' || c = '1'

def binValue (ds : List Char) : Nat :=
  ds.foldl (fun acc c => 2 * acc + digitVal c) 0

/-- The optional exponent part after the mantissa: empty means exponent 0;
`e`/`E` followed by an optionally signed nonempty digit run; anything else
fails the whole literal. -/
def parseExponentPart : List Char → Option Int
  | [] => some 0
  | c :: rest =>
    if c = 'e' ∨ c = 'E' then
      match rest with
      | '+' :: ds => if ds ≠ [] ∧ ds.all isDecDigit then some (decValue ds) else none
      | '-' :: ds => if ds ≠ [] ∧ ds.all isDecDigit then some (-(decValue ds : Int)) else none
      | ds => if ds ≠ [] ∧ ds.all isDecDigit then some (decValue ds) else none
    else none

/-- `10 ^ e` as a rational, built from core `Rat` operations so that it
evaluates by kernel reduction. -/
def tenPow : Int → ℚ
  | Int.ofNat n => Rat.divInt ((10 : Int) ^ n) 1
  | Int.negSucc n => Rat.divInt 1 ((10 : Int) ^ (n + 1))

/-- The value of `intDigits.fracDigits`, as a rational. -/
def mantissaValue (intDs fracDs : List Char) : ℚ :=
  Rat.divInt (decValue intDs) 1
    + Rat.divInt (decValue fracDs) ((10 : Int) ^ fracDs.length)

/-- `StrUnsignedDecimalLiteral` (with the sign already consumed):
`Infinity`, or decimal digits with optional `.` fraction and exponent. -/
def parseUnsignedDec (neg : Bool) (l : List Char) : JsNum :=
  if l = "Infinity".data then JsNum.inf neg
  else
    let intDs := l.takeWhile isDecDigit
    let r1 := l.dropWhile isDecDigit
    match r1 with
    | '.' :: r2 =>
      let fracDs := r2.takeWhile isDecDigit
      let r3 := r2.dropWhile isDecDigit
      if intDs = [] ∧ fracDs = [] then JsNum.nan
      else
        match parseExponentPart r3 with
        | some e =>
          let mag : ℚ := mantissaValue intDs fracDs
          JsNum.finite ((if neg then -mag else mag) * tenPow e)
        | none => JsNum.nan
    | _ =>
      if intDs = [] then JsNum.nan
      else
        match parseExponentPart r1 with
        | some e =>
          let mag : ℚ := mantissaValue intDs []
          JsNum.finite ((if neg then -mag else mag) * tenPow e)
        | none => JsNum.nan

/-- `NonDecimalIntegerLiteral` (`0x`, `0o`, `0b`; only without a sign). -/
def parseNonDecimal (l : List Char) : Option JsNum :=
  match l with
  | '0' :: x :: ds =>
    if x = 'x' ∨ x = 'X' then
      some (if ds ≠ [] ∧ ds.all isHexDigit then JsNum.finite (Rat.divInt (hexValue ds) 1) else JsNum.nan)
    else if x = 'o' ∨ x = 'O' then
      some (if ds ≠ [] ∧ ds.all isOctDigit then JsNum.finite (Rat.divInt (octValue ds) 1) else JsNum.nan)
    else if x = 'b' ∨ x = 'B' then
      some (if ds ≠ [] ∧ ds.all isBinDigit then JsNum.finite (Rat.divInt (binValue ds) 1) else JsNum.nan)
    else none
  | _ => none

/-- `Number(string)`. -/
def jsStrToNum (l : List Char) : JsNum :=
  match jsTrim l with
  | [] => JsNum.finite 0
  | '+' :: rest => parseUnsignedDec false rest
  | '-' :: rest => parseUnsignedDec true rest
  | t =>
    match parseNonDecimal t with
    | some n => n
    | none => parseUnsignedDec false t

/-! ## Route parsing (api.ts lines 810-839)

```
function parsePath(pathname: string): Route {
  const parts = pathname.split('/').filter(Boolean)
  if (parts.length === 1 && parts[0] === 'journals') { return { name: 'journals' } }
  if (parts.length === 2 && parts[0] === 'journals') {
    const journalId = Number(parts[1])
    if (Number.isFinite(journalId)) { return { name: 'journalDetails', journalId } }
  }
  if (parts.length === 2 && parts[0] === 'articles') { ... articleView ... }
  if (parts.length === 3 && parts[0] === 'articles' && parts[2] === 'edit') { ... articleEdit ... }
  return { name: 'journals' }
}
```

A failed `Number.isFinite` check falls through; with the length/first-part
guards already exhausted every fall-through ends at the journals route. -/

inductive Route where
  | journals
  | journalDetails (journalId : ℚ)
  | articleView (articleId : ℚ)
  | articleEdit (articleId : ℚ)
deriving DecidableEq, Repr

/-- `pathname.split(sep)` for a single-character separator. -/
def splitOnCharGo (sep : Char) : List Char → List Char → List (List Char)
  | acc, [] => [acc.reverse]
  | acc, c :: rest =>
    if c = sep then acc.reverse :: splitOnCharGo sep [] rest
    else splitOnCharGo sep (c :: acc) rest

/-- `pathname.split('/').filter(Boolean)` (the empty string is falsy). -/
def pathParts (pathname : String) : List (List Char) :=
  (splitOnCharGo '/' [] pathname.data).filter (fun p => p ≠ [])

def routeOfParts (parts : List (List Char)) : Route :=
  match parts with
  | [p0] =>
    if p0 = "journals".data then Route.journals else Route.journals
  | [p0, p1] =>
    if p0 = "journals".data then
      match jsStrToNum p1 with
      | JsNum.finite q => Route.journalDetails q
      | _ => Route.journals
    else if p0 = "articles".data then
      match jsStrToNum p1 with
      | JsNum.finite q => Route.articleView q
      | _ => Route.journals
    else Route.journals
  | [p0, p1, p2] =>
    if p0 = "articles".data ∧ p2 = "edit".data then
      match jsStrToNum p1 with
      | JsNum.finite q => Route.articleEdit q
      | _ => Route.journals
    else Route.journals
  | _ => Route.journals

/-- `parsePath` from api.ts. -/
def parsePath (pathname : String) : Route :=
  routeOfParts (pathParts pathname)

theorem splitOnCharGo_no_sep (sep : Char) :
    ∀ (l acc : List Char), (∀ c ∈ l, ¬ c = sep) →
      splitOnCharGo sep acc l = [acc.reverse ++ l] := by
  intro l
  induction l with
  | nil => intro acc _; simp [splitOnCharGo]
  | cons c rest ih =>
    intro acc h
    rw [splitOnCharGo, if_neg (h c (List.mem_cons_self c rest))]
    rw [ih (c :: acc) (fun x hx => h x (List.mem_cons_of_mem c hx))]
    simp




theorem pathParts_articles_segment (s : String)
    (hsep : ∀ c ∈ s.data, ¬ c = '/') (hne : s.data ≠ []) :
    pathParts ("/articles/" ++ s) = ["articles".data, s.data] := by
  have hdata : ("/articles/" ++ s).data
      = '/' :: 'a' :: 'r' :: 't' :: 'i' :: 'c' :: 'l' :: 'e' :: 's' :: '/' :: s.data := by
    rw [String.data_append]
    rfl
  rw [pathParts, hdata]
  have hns := splitOnCharGo_no_sep '/' s.data [] hsep
  simp only [List.reverse_nil, List.nil_append] at hns
  simp [splitOnCharGo, hns, List.filter_cons, hne]

/-- Universal fallback of `routeOfParts`: parts that match none of the four
recognized shapes — not the bare journals segment, and not a
journals/articles id shape with a finite numeric segment — evaluate to the
journals route. -/
theorem routeOfParts_fallback (parts : List (List Char))
    (h1 : parts ≠ ["journals".data])
    (h2 : ∀ (s : List Char) (q : ℚ), parts = ["journals".data, s] →
        jsStrToNum s ≠ JsNum.finite q)
    (h3 : ∀ (s : List Char) (q : ℚ), parts = ["articles".data, s] →
        jsStrToNum s ≠ JsNum.finite q)
    (h4 : ∀ (s : List Char) (q : ℚ), parts = ["articles".data, s, "edit".data] →
        jsStrToNum s ≠ JsNum.finite q) :
    routeOfParts parts = Route.journals := by
  rcases parts with _ | ⟨p0, _ | ⟨p1, _ | ⟨p2, _ | ⟨p3, rest⟩⟩⟩⟩
  · rfl
  · by_cases hj : p0 = "journals".data
    · exact absurd (by rw [hj]) h1
    · simp [routeOfParts, hj]
  · by_cases hj : p0 = "journals".data
    · subst hj
      cases hn : jsStrToNum p1 with
      | finite q => exact absurd hn (h2 p1 q rfl)
      | nan => simp [routeOfParts, hn]
      | inf b => simp [routeOfParts, hn]
    · by_cases ha : p0 = "articles".data
      · subst ha
        cases hn : jsStrToNum p1 with
        | finite q => exact absurd hn (h3 p1 q rfl)
        | nan => simp [routeOfParts, hn]
        | inf b => simp [routeOfParts, hn]
      · simp [routeOfParts, hj, ha]
  · by_cases hc : p0 = "articles".data ∧ p2 = "edit".data
    · obtain ⟨ha, he⟩ := hc
      subst ha
      subst he
      cases hn : jsStrToNum p1 with
      | finite q => exact absurd hn (h4 p1 q rfl)
      | nan => simp [routeOfParts, hn]
      | inf b => simp [routeOfParts, hn]
    · simp [routeOfParts, hc]
  · rfl

/-- C10: `parsePath` is total — every pathname yields one of the four
routes; *every* pathname whose parts match none of the four recognized
shapes (not `journals` alone, and not a journals/articles shape whose
numeric segment is `Number`-finite) falls back to the journals-list route,
stated universally and exercised on `/journals/abc` (non-numeric id),
`/articles/3/view` (wrong third segment) and other shapes; and a numeric
segment is accepted exactly when `Number(segment)` is finite, so the
segments `-3` and `2.5` under the articles prefix still parse to article
routes with the negative and non-integer ids rather than falling back. -/
theorem parsePath_total_spec :
    (∀ pathname : String,
        parsePath pathname = Route.journals
        ∨ (∃ q, parsePath pathname = Route.journalDetails q)
        ∨ (∃ q, parsePath pathname = Route.articleView q)
        ∨ (∃ q, parsePath pathname = Route.articleEdit q)) ∧
    (∀ (s : String) (q : ℚ), (∀ c ∈ s.data, ¬ c = '/') → s.data ≠ [] →
        jsStrToNum s.data = JsNum.finite q →
        parsePath ("/articles/" ++ s) = Route.articleView q) ∧
    (∀ pathname : String,
        pathParts pathname ≠ ["journals".data] →
        (∀ (s : List Char) (q : ℚ), pathParts pathname = ["journals".data, s] →
            jsStrToNum s ≠ JsNum.finite q) →
        (∀ (s : List Char) (q : ℚ), pathParts pathname = ["articles".data, s] →
            jsStrToNum s ≠ JsNum.finite q) →
        (∀ (s : List Char) (q : ℚ),
            pathParts pathname = ["articles".data, s, "edit".data] →
            jsStrToNum s ≠ JsNum.finite q) →
        parsePath pathname = Route.journals) ∧
    parsePath "/articles/-3" = Route.articleView (-3) ∧
    parsePath "/articles/2.5" = Route.articleView (5/2) ∧
    parsePath "/articles/abc" = Route.journals ∧
    parsePath "/journals/abc" = Route.journals ∧
    parsePath "/articles/3/view" = Route.journals ∧
    parsePath "/journals/5/extra" = Route.journals ∧
    parsePath "/foo/bar" = Route.journals ∧
    parsePath "/journals" = Route.journals ∧
    parsePath "/journals/7" = Route.journalDetails 7 ∧
    parsePath "/articles/4/edit" = Route.articleEdit 4 := by
  refine ⟨?_, ?_, ?_, ?_, ?_, ?_, ?_, ?_, ?_, ?_, ?_, ?_, ?_⟩
  · intro pathname
    cases h : parsePath pathname with
    | journals => exact Or.inl rfl
    | journalDetails q => exact Or.inr (Or.inl ⟨q, rfl⟩)
    | articleView q => exact Or.inr (Or.inr (Or.inl ⟨q, rfl⟩))
    | articleEdit q => exact Or.inr (Or.inr (Or.inr ⟨q, rfl⟩))
  · intro s q hsep hne hfin
    rw [parsePath, pathParts_articles_segment s hsep hne]
    simp [routeOfParts, hfin]
  · intro pathname h1 h2 h3 h4
    rw [parsePath]
    exact routeOfParts_fallback (pathParts pathname) h1 h2 h3 h4
  · simp [parsePath, pathParts, splitOnCharGo, routeOfParts, jsStrToNum, jsTrim,
      jsWhitespace, jsWhitespaceChars, parseUnsignedDec, parseNonDecimal,
      parseExponentPart, mantissaValue, tenPow, decValue, isDecDigit, digitVal,
      Rat.divInt_eq_div]
  · simp [parsePath, pathParts, splitOnCharGo, routeOfParts, jsStrToNum, jsTrim,
      jsWhitespace, jsWhitespaceChars, parseUnsignedDec, parseNonDecimal,
      parseExponentPart, mantissaValue, tenPow, decValue, isDecDigit, digitVal,
      Rat.divInt_eq_div]
    norm_num
  · simp [parsePath, pathParts, splitOnCharGo, routeOfParts, jsStrToNum, jsTrim,
      jsWhitespace, jsWhitespaceChars, parseUnsignedDec, parseNonDecimal,
      parseExponentPart, mantissaValue, tenPow, decValue, isDecDigit, digitVal]
  · simp [parsePath, pathParts, splitOnCharGo, routeOfParts, jsStrToNum, jsTrim,
      jsWhitespace, jsWhitespaceChars, parseUnsignedDec, parseNonDecimal,
      parseExponentPart, mantissaValue, tenPow, decValue, isDecDigit, digitVal]
  · simp [parsePath, pathParts, splitOnCharGo, routeOfParts, jsStrToNum, jsTrim,
      jsWhitespace, jsWhitespaceChars, parseUnsignedDec, parseNonDecimal,
      parseExponentPart, mantissaValue, tenPow, decValue, isDecDigit, digitVal,
      Rat.divInt_eq_div]
  · simp [parsePath, pathParts, splitOnCharGo, routeOfParts, jsStrToNum, jsTrim,
      jsWhitespace, jsWhitespaceChars, parseUnsignedDec, parseNonDecimal,
      parseExponentPart, mantissaValue, tenPow, decValue, isDecDigit, digitVal,
      Rat.divInt_eq_div]
  · simp [parsePath, pathParts, splitOnCharGo, routeOfParts, jsStrToNum, jsTrim,
      jsWhitespace, jsWhitespaceChars, parseUnsignedDec, parseNonDecimal,
      parseExponentPart, mantissaValue, tenPow, decValue, isDecDigit, digitVal]
  · simp [parsePath, pathParts, splitOnCharGo, routeOfParts]
  · simp [parsePath, pathParts, splitOnCharGo, routeOfParts, jsStrToNum, jsTrim,
      jsWhitespace, jsWhitespaceChars, parseUnsignedDec, parseNonDecimal,
      parseExponentPart, mantissaValue, tenPow, decValue, isDecDigit, digitVal,
      Rat.divInt_eq_div]
  · simp [parsePath, pathParts, splitOnCharGo, routeOfParts, jsStrToNum, jsTrim,
      jsWhitespace, jsWhitespaceChars, parseUnsignedDec, parseNonDecimal,
      parseExponentPart, mantissaValue, tenPow, decValue, isDecDigit, digitVal,
      Rat.divInt_eq_div]

/-- C10 witness: the general segment clause instantiated at `"-3"`, and the
universal fallback clause instantiated at `"/journals/abc"` (its shape
hypotheses discharged concretely: the id segment `abc` is `Number`-NaN). -/
theorem parsePath_total_spec_witness :
    (∀ c ∈ ("-3" : String).data, ¬ c = '/') ∧ ("-3" : String).data ≠ [] ∧
      jsStrToNum ("-3" : String).data = JsNum.finite (-3) ∧
      parsePath ("/articles/" ++ "-3") = Route.articleView (-3) ∧
      pathParts "/journals/abc" ≠ ["journals".data] ∧
      jsStrToNum ("abc" : String).data = JsNum.nan ∧
      parsePath "/journals/abc" = Route.journals := by
  have hfin : jsStrToNum ("-3" : String).data = JsNum.finite (-3) := by
    simp [jsStrToNum, jsTrim, jsWhitespace, jsWhitespaceChars, parseUnsignedDec,
      parseNonDecimal, parseExponentPart, mantissaValue, tenPow, decValue,
      isDecDigit, digitVal, Rat.divInt_eq_div]
  have habc : jsStrToNum ("abc" : String).data = JsNum.nan := by
    simp [jsStrToNum, jsTrim, jsWhitespace, jsWhitespaceChars, parseUnsignedDec,
      parseNonDecimal, parseExponentPart, isDecDigit]
  have hpp : pathParts "/journals/abc" = ["journals".data, "abc".data] := by decide
  have h1 : pathParts "/journals/abc" ≠ ["journals".data] := by
    rw [hpp]
    decide
  have h2 : ∀ (s : List Char) (q : ℚ), pathParts "/journals/abc" = ["journals".data, s] →
      jsStrToNum s ≠ JsNum.finite q := by
    intro s q heq hf
    rw [hpp] at heq
    simp only [List.cons.injEq, and_true] at heq
    rw [← heq.2] at hf
    rw [habc] at hf
    cases hf
  have h3 : ∀ (s : List Char) (q : ℚ), pathParts "/journals/abc" = ["articles".data, s] →
      jsStrToNum s ≠ JsNum.finite q := by
    intro s q heq
    rw [hpp] at heq
    simp at heq
  have h4 : ∀ (s : List Char) (q : ℚ),
      pathParts "/journals/abc" = ["articles".data, s, "edit".data] →
      jsStrToNum s ≠ JsNum.finite q := by
    intro s q heq
    rw [hpp] at heq
    simp at heq
  exact ⟨by decide, by decide, hfin,
    parsePath_total_spec.2.1 "-3" (-3) (by decide) (by decide) hfin,
    h1, habc,
    parsePath_total_spec.2.2.1 "/journals/abc" h1 h2 h3 h4⟩


/-! ## Reference resolution and index-list rendering
(renderBlockHtml, api.ts lines 1164-1214, and the resolution maps built in
ArticleViewPage, lines 1239-1244)

The resolution maps are JS objects built with `Object.fromEntries` (a later
entry for the same key overwrites an earlier one), modelled as association
lists looked up from the right.  Entry fields coming from stored JSON are
modelled as `JsVal` (a number, a string, or `undefined`). -/

/-- A JS value as found in a stored index-list entry field. -/
inductive JsVal where
  | num (n : JsNum)
  | str (s : String)
  | undef
deriving DecidableEq, Repr

/-- `typeof v === 'number' ? v : Number(v)`. -/
def jsNumberOf (v : JsVal) : JsNum :=
  match v with
  | .num n => n
  | .str s => jsStrToNum s.data
  | .undef => JsNum.nan

/-- A stored index-list entry `{articleId, title}` with fields of unchecked
shape. -/
structure RawEntry where
  articleId : JsVal
  title : JsVal
deriving DecidableEq, Repr

/-- Lookup in an `Object.fromEntries` object: the last entry with the key
wins. -/
def recordGet (m : List (ℚ × String)) (k : ℚ) : Option String :=
  (m.reverse.find? (fun p => p.1 == k)).map (fun p => p.2)

/-- `lookup || fallback`: JS falls through on `undefined` and on the empty
string (both falsy). -/
def jsOrStr (v : Option String) (fallback : String) : String :=
  match v with
  | some t => if t = "" then fallback else t
  | none => fallback

/-- `${id}` for a finite JS number.  Exact for integral ids — the only ids
this application's editor tools produce; a non-integral id would print in
JS float formatting, which this model does not reproduce (no theorem below
evaluates one). -/
def jsNumToString (q : ℚ) : String :=
  if q.den = 1 then toString q.num else toString q

/-- `tooltip.replace(/"/g, '&quot;')`. -/
def escapeQuotes (s : String) : String :=
  ⟨s.data.flatMap (fun c => if c = '"' then "&quot;".data else [c])⟩

/-- The inline-link display title (api.ts line 1180):
`articleTitleById[articleId] || `Статья #${articleId}``. -/
def resolveLinkTitle (titleById : List (ℚ × String)) (id : ℚ) : String :=
  jsOrStr (recordGet titleById id) ("Статья #" ++ jsNumToString id)

/-- The inline-link tooltip (api.ts lines 1184-1185):
`preview ? `${title}\n${preview}` : title`. -/
def resolveLinkTooltip (titleById previewById : List (ℚ × String)) (id : ℚ) : String :=
  let title := resolveLinkTitle titleById id
  match recordGet previewById id with
  | some p => if p = "" then title else title ++ "\n" ++ p
  | none => title

/-- One `indexList` entry (api.ts lines 1193-1202): a non-finite id yields
`""` (filtered out below); otherwise an anchor whose label prefers the
sibling title, then the stored fallback title when that field is a string,
then the deterministic label. -/
def renderIndexEntry (titleById previewById : List (ℚ × String)) (entry : RawEntry) : String :=
  match jsNumberOf entry.articleId with
  | JsNum.finite id =>
    let fallback :=
      match entry.title with
      | JsVal.str s => s
      | _ => "Статья #" ++ jsNumToString id
    let title := jsOrStr (recordGet titleById id) fallback
    let tooltip :=
      match recordGet previewById id with
      | some p => if p = "" then title else title ++ "\n" ++ p
      | none => title
    "<li><a class=\"wiki-link\" data-tooltip=\"" ++ escapeQuotes tooltip
      ++ "\" href=\"/articles/" ++ jsNumToString id
      ++ "\" target=\"_blank\" rel=\"noopener noreferrer\">" ++ title ++ "</a></li>"
  | _ => ""

/-- The `indexList` branch of `renderBlockHtml` (api.ts lines 1190-1207):
`entries.map(...).filter(Boolean).join('')` wrapped in the list container. -/
def renderIndexListBlock (titleById previewById : List (ℚ × String))
    (entries : List RawEntry) : String :=
  "<ul class=\"index-list-view\">"
    ++ String.join ((entries.map (renderIndexEntry titleById previewById)).filter
        (fun s => s ≠ ""))
    ++ "</ul>"

/-- The title map built by ArticleViewPage (line 1239):
`Object.fromEntries(relatedArticles.map(item => [item.id, item.title]))`. -/
def titleMapOf (articles : List Article) : List (ℚ × String) :=
  articles.map (fun a => ((a.id : ℚ), a.title))

/-- `sep.join` of JS `Array.prototype.join`. -/
def joinWith (sep : String) : List String → String
  | [] => ""
  | x :: rest => rest.foldl (fun acc s => acc ++ sep ++ s) x

/-- The preview of one sibling (line 1242):
`(item.content_text || '').split('\n').slice(0, 2).join(' ')`. -/
def previewOf (a : Article) : String :=
  joinWith " " (((splitOnCharGo '\n' [] a.content_text.data).take 2).map
    (fun l => (⟨l⟩ : String)))

/-- The preview map built by ArticleViewPage (lines 1240-1244). -/
def previewMapOf (articles : List Article) : List (ℚ × String) :=
  articles.map (fun a => ((a.id : ℚ), previewOf a))

/-- `recordGet` on a map built from articles finds the (unique, by the
duplicate-freeness hypothesis) article's entry. -/
theorem recordGet_map_of_nodup (f : Article → String) :
    ∀ {articles : List Article}, (articles.map (fun x => x.id)).Nodup →
      ∀ {a : Article}, a ∈ articles →
      recordGet (articles.map (fun x => ((x.id : ℚ), f x))) (a.id : ℚ) = some (f a) := by
  intro articles
  induction articles with
  | nil => intro _ a ha; cases ha
  | cons b rest ih =>
    intro hids a ha
    simp only [List.map_cons, List.nodup_cons] at hids
    rw [recordGet, List.map_cons, List.reverse_cons, List.find?_append]
    rcases List.mem_cons.mp ha with rfl | ha'
    · have hnone : (rest.map (fun x => ((x.id : ℚ), f x))).reverse.find?
          (fun p => p.1 == (a.id : ℚ)) = none := by
        apply List.find?_eq_none.mpr
        intro p hp
        rw [List.mem_reverse, List.mem_map] at hp
        obtain ⟨c, hc, rfl⟩ := hp
        simp only [beq_iff_eq, Int.cast_inj]
        intro heq
        exact hids.1 (List.mem_map.mpr ⟨c, hc, heq⟩)
      rw [hnone]
      simp
    · have := ih hids.2 ha'
      rw [recordGet] at this
      rcases Option.map_eq_some'.mp this with ⟨p, hp, hval⟩
      rw [hp]
      simpa using hval

/-- `recordGet` misses ids that belong to no article of the map. -/
theorem recordGet_map_none (f : Article → String) {articles : List Article} {id : ℚ}
    (h : ∀ a ∈ articles, (a.id : ℚ) ≠ id) :
    recordGet (articles.map (fun x => ((x.id : ℚ), f x))) id = none := by
  rw [recordGet, List.find?_eq_none.mpr, Option.map_none']
  intro p hp
  rw [List.mem_reverse, List.mem_map] at hp
  obtain ⟨c, hc, rfl⟩ := hp
  simpa using h c hc

/-- C5 counterexample: the deterministic fallback label of the code is
`"Статья #<id>"`, not the claimed `"Article #<id>"`; and a sibling whose
title is the empty string also resolves to the fallback label (the `||`
falls through on the falsy empty string), not to the article's title. -/
theorem resolveLinkTitle_label_differs :
    resolveLinkTitle (titleMapOf []) 3 = "Статья #3" ∧
      ("Статья #3" : String) ≠ "Article #3" ∧
      resolveLinkTitle (titleMapOf [⟨3, "", "x"⟩]) 3 = "Статья #3" ∧
      ("Статья #3" : String) ≠ "" := by
  refine ⟨?_, by decide, ?_, by decide⟩
  · simp [resolveLinkTitle, titleMapOf, recordGet, jsOrStr, jsNumToString]
    rfl
  · have h3 : ((3 : Int) : ℚ) = (3 : ℚ) := by norm_num
    simp [resolveLinkTitle, titleMapOf, recordGet, jsOrStr, jsNumToString, h3]
    rfl

/-- C5 (amended): for an id present among the journal's sibling articles
(with their ids pairwise distinct) whose title is non-empty, the resolved
display title is that article's title; for an id with an empty sibling
title, and for an id absent from the siblings, it is the deterministic
fallback label `"Статья #<id>"`.  Resolution is total: it never fails. -/
theorem resolveLinkTitle_spec :
    (∀ (articles : List Article) (a : Article),
        (articles.map (fun x => x.id)).Nodup → a ∈ articles → a.title ≠ "" →
        resolveLinkTitle (titleMapOf articles) (a.id : ℚ) = a.title) ∧
    (∀ (articles : List Article) (a : Article),
        (articles.map (fun x => x.id)).Nodup → a ∈ articles → a.title = "" →
        resolveLinkTitle (titleMapOf articles) (a.id : ℚ)
          = "Статья #" ++ jsNumToString (a.id : ℚ)) ∧
    (∀ (articles : List Article) (id : ℚ), (∀ a ∈ articles, (a.id : ℚ) ≠ id) →
        resolveLinkTitle (titleMapOf articles) id
          = "Статья #" ++ jsNumToString id) := by
  refine ⟨?_, ?_, ?_⟩
  · intro articles a hids ha htitle
    rw [resolveLinkTitle, titleMapOf, recordGet_map_of_nodup (fun x => x.title) hids ha,
      jsOrStr, if_neg htitle]
  · intro articles a hids ha htitle
    rw [resolveLinkTitle, titleMapOf, recordGet_map_of_nodup (fun x => x.title) hids ha,
      jsOrStr, if_pos htitle]
  · intro articles id h
    rw [resolveLinkTitle, titleMapOf, recordGet_map_none (fun x => x.title) h, jsOrStr]

/-- C5 witness: sibling list `[⟨7, "Intro", _⟩]` resolves id 7 to `"Intro"`
and id 9 to the fallback label. -/
theorem resolveLinkTitle_spec_witness :
    (([⟨7, "Intro", "x"⟩] : List Article).map (fun x => x.id)).Nodup ∧
      resolveLinkTitle (titleMapOf [⟨7, "Intro", "x"⟩]) ((7 : Int) : ℚ) = "Intro" ∧
      resolveLinkTitle (titleMapOf [⟨7, "Intro", "x"⟩]) 9
        = "Статья #" ++ jsNumToString 9 := by
  refine ⟨by decide, ?_, ?_⟩
  · exact resolveLinkTitle_spec.1 [⟨7, "Intro", "x"⟩] ⟨7, "Intro", "x"⟩
      (by decide) (List.mem_singleton.mpr rfl) (by decide)
  · refine resolveLinkTitle_spec.2.2 [⟨7, "Intro", "x"⟩] 9 ?_
    intro a ha
    rcases List.mem_singleton.mp ha with rfl
    norm_num

/-- C3 counterexample: an index-list entry whose target id resolves to no
sibling title and has no stored fallback title is NOT omitted — it renders
as an anchor labeled with the deterministic label `"Статья #3"`. -/
theorem renderIndexList_unresolved_not_omitted :
    renderIndexListBlock [] [] [⟨JsVal.num (JsNum.finite 3), JsVal.undef⟩]
        = "<ul class=\"index-list-view\"><li><a class=\"wiki-link\" data-tooltip=\"Статья #3\" href=\"/articles/3\" target=\"_blank\" rel=\"noopener noreferrer\">Статья #3</a></li></ul>" ∧
      renderIndexListBlock [] [] [⟨JsVal.num (JsNum.finite 3), JsVal.undef⟩]
        ≠ "<ul class=\"index-list-view\"></ul>" := by
  constructor
  · simp [renderIndexListBlock, renderIndexEntry, jsNumberOf, recordGet, jsOrStr,
      jsNumToString, escapeQuotes]
    rfl
  · simp only [renderIndexListBlock, renderIndexEntry, jsNumberOf, recordGet, jsOrStr,
      jsNumToString, escapeQuotes, List.reverse_nil, List.find?_nil, Option.map_none,
      Rat.den_ofNat, Rat.num_ofNat]
    decide

/-- C3 (amended): when rendering an index-list block, an entry with a
missing or non-numeric target id yields the empty string and is therefore
filtered out of the list (a singleton block renders as the empty list); an
entry whose id is absent from the resolution maps but carries a stored
fallback title renders as an anchor labeled (and tooltipped) with that
fallback title; and an entry whose id resolves to no sibling title and has
no stored fallback renders as an anchor labeled with the deterministic
label `"Статья #<id>"` — it is not omitted. -/
theorem renderIndexEntry_spec (titleById previewById : List (ℚ × String)) :
    (∀ t, renderIndexEntry titleById previewById ⟨JsVal.undef, t⟩ = "") ∧
    (∀ t (s : String), jsStrToNum s.data = JsNum.nan →
        renderIndexEntry titleById previewById ⟨JsVal.str s, t⟩ = "") ∧
    (∀ t, renderIndexListBlock titleById previewById [⟨JsVal.undef, t⟩]
        = "<ul class=\"index-list-view\"></ul>") ∧
    (∀ (id : ℚ) (fb : String), recordGet titleById id = none →
        recordGet previewById id = none →
        renderIndexEntry titleById previewById ⟨JsVal.num (JsNum.finite id), JsVal.str fb⟩
          = "<li><a class=\"wiki-link\" data-tooltip=\"" ++ escapeQuotes fb
            ++ "\" href=\"/articles/" ++ jsNumToString id
            ++ "\" target=\"_blank\" rel=\"noopener noreferrer\">" ++ fb ++ "</a></li>") ∧
    (∀ (id : ℚ), recordGet titleById id = none → recordGet previewById id = none →
        renderIndexEntry titleById previewById ⟨JsVal.num (JsNum.finite id), JsVal.undef⟩
          = "<li><a class=\"wiki-link\" data-tooltip=\""
            ++ escapeQuotes ("Статья #" ++ jsNumToString id)
            ++ "\" href=\"/articles/" ++ jsNumToString id
            ++ "\" target=\"_blank\" rel=\"noopener noreferrer\">"
            ++ ("Статья #" ++ jsNumToString id) ++ "</a></li>") := by
  refine ⟨?_, ?_, ?_, ?_, ?_⟩
  · intro t
    simp [renderIndexEntry, jsNumberOf]
  · intro t s hs
    simp [renderIndexEntry, jsNumberOf, hs]
  · intro t
    simp [renderIndexListBlock, renderIndexEntry, jsNumberOf]
    rfl
  · intro id fb ht hp
    simp [renderIndexEntry, jsNumberOf, ht, hp, jsOrStr]
  · intro id ht hp
    simp [renderIndexEntry, jsNumberOf, ht, hp, jsOrStr]

/-- C3 witness: with empty resolution maps, a non-numeric entry is dropped
and an entry with stored fallback `"Old"` renders with label `"Old"` (the
spec scenario with deleted article 3). -/
theorem renderIndexEntry_spec_witness :
    jsStrToNum ("abc" : String).data = JsNum.nan ∧
      recordGet [] 3 = none ∧
      renderIndexEntry [] [] ⟨JsVal.str "abc", JsVal.undef⟩ = "" ∧
      renderIndexEntry [] [] ⟨JsVal.num (JsNum.finite 3), JsVal.str "Old"⟩
        = "<li><a class=\"wiki-link\" data-tooltip=\"" ++ escapeQuotes "Old"
          ++ "\" href=\"/articles/" ++ jsNumToString 3
          ++ "\" target=\"_blank\" rel=\"noopener noreferrer\">" ++ "Old" ++ "</a></li>" := by
  have habc : jsStrToNum ("abc" : String).data = JsNum.nan := by
    simp [jsStrToNum, jsTrim, jsWhitespace, jsWhitespaceChars, parseUnsignedDec,
      parseNonDecimal, parseExponentPart, isDecDigit]
  exact ⟨habc, rfl, (renderIndexEntry_spec [] []).2.1 JsVal.undef "abc" habc,
    (renderIndexEntry_spec [] []).2.2.2.1 3 "Old" rfl rfl⟩

/-! ## Batched view loading
(JournalDetailsPage.loadData, api.ts lines 947-964, and
ArticleViewPage's load effect, lines 1227-1253)

Each collaborator request is modelled by its settled outcome
(`Except String _`); a view load is the induced transformer on the
component's state.  `Promise.all` succeeds only when every joined request
does; on failure it rejects with the first rejection (which error message
wins is timing-dependent and immaterial here — the model picks the first
failing one in argument order). -/

structure ArticleNeighbors where
  prev_article_id : Option Int
  next_article_id : Option Int
deriving DecidableEq, Repr

/-- The state of `JournalDetailsPage` touched by `loadData`. -/
structure JournalDetailsState where
  journal : Option Journal
  articles : List Article
  sequenceIds : List Int
  loading : Bool
  error : Option String
deriving DecidableEq, Repr

/-- `loadData`: `Promise.all([getJournal, listJournalArticles,
getJournalSequence])` destructured only after all three resolve; on any
rejection only the error is set. -/
def runLoadJournalData (s0 : JournalDetailsState)
    (rJournal : Except String Journal) (rArticles : Except String (List Article))
    (rSequence : Except String (List Int)) : JournalDetailsState :=
  let s1 := { s0 with loading := true, error := none }
  match rJournal, rArticles, rSequence with
  | .ok j, .ok arts, .ok seqIds =>
    { s1 with journal := some j, articles := arts, sequenceIds := seqIds, loading := false }
  | .error e, _, _ => { s1 with error := some e, loading := false }
  | _, .error e, _ => { s1 with error := some e, loading := false }
  | _, _, .error e => { s1 with error := some e, loading := false }

/-- The state of `ArticleViewPage` touched by its load effect. -/
structure ArticleViewState where
  article : Option Article
  titleById : List (ℚ × String)
  previewById : List (ℚ × String)
  neighbors : ArticleNeighbors
  loading : Bool
  error : Option String
deriving DecidableEq, Repr

def initialArticleViewState : ArticleViewState :=
  ⟨none, [], [], ⟨none, none⟩, true, none⟩

/-- `ArticleViewPage.loadArticle`: `getArticle` is awaited *first* and its
result stored with `setArticle` before the two-request batch
`Promise.all([listJournalArticles, getArticleNeighbors])` is joined; a
failure of that batch leaves the already-stored article in place and only
sets the error. -/
def runLoadArticle (s0 : ArticleViewState) (rArticle : Except String Article)
    (rRelated : Except String (List Article))
    (rNeighbors : Except String ArticleNeighbors) : ArticleViewState :=
  let s1 := { s0 with loading := true, error := none }
  match rArticle with
  | .error e => { s1 with error := some e, loading := false }
  | .ok art =>
    let s2 := { s1 with article := some art }
    match rRelated, rNeighbors with
    | .ok rel, .ok nb =>
      { s2 with neighbors := nb,
                titleById := titleMapOf rel,
                previewById := previewMapOf rel,
                loading := false }
    | .error e, _ => { s2 with error := some e, loading := false }
    | _, .error e => { s2 with error := some e, loading := false }

/-- C7 counterexample: on the article view, a half-failed load (article
request succeeded, sibling-list request failed) leaves the article stored —
and the component renders whatever `article` state is set (`{article && …}`)
— so state from the successful request of a half-failed batch *is*
rendered, alongside the error. -/
theorem runLoadArticle_partial_render :
    (runLoadArticle initialArticleViewState (.ok articleA) (.error "network") (.ok ⟨none, none⟩)).article
        = some articleA ∧
      (runLoadArticle initialArticleViewState (.ok articleA) (.error "network") (.ok ⟨none, none⟩)).error
        = some "network" := by
  constructor <;> rfl

/-- C7 (amended): the journal view joins its three requests and is
all-or-nothing: if any fails, the journal, article-list and sequence state
are unchanged from before the load and only the error is set; if all
succeed, all three are stored and no error is set.  The article view is
*not* all-or-nothing: the article request is awaited and stored first; if
it fails nothing else is stored, but if it succeeds and the joined
sibling/neighbors batch fails, the article remains stored (and rendered)
with the error set, the maps and neighbors unchanged. -/
theorem batched_load_spec :
    (∀ (s0 : JournalDetailsState) (e : String)
        (rA : Except String (List Article)) (rS : Except String (List Int)),
        (runLoadJournalData s0 (.error e) rA rS).journal = s0.journal
        ∧ (runLoadJournalData s0 (.error e) rA rS).articles = s0.articles
        ∧ (runLoadJournalData s0 (.error e) rA rS).sequenceIds = s0.sequenceIds
        ∧ (runLoadJournalData s0 (.error e) rA rS).error = some e) ∧
    (∀ (s0 : JournalDetailsState) (j : Journal) (e : String)
        (rS : Except String (List Int)),
        (runLoadJournalData s0 (.ok j) (.error e) rS).journal = s0.journal
        ∧ (runLoadJournalData s0 (.ok j) (.error e) rS).articles = s0.articles
        ∧ (runLoadJournalData s0 (.ok j) (.error e) rS).sequenceIds = s0.sequenceIds
        ∧ (runLoadJournalData s0 (.ok j) (.error e) rS).error = some e) ∧
    (∀ (s0 : JournalDetailsState) (j : Journal) (arts : List Article) (e : String),
        (runLoadJournalData s0 (.ok j) (.ok arts) (.error e)).journal = s0.journal
        ∧ (runLoadJournalData s0 (.ok j) (.ok arts) (.error e)).articles = s0.articles
        ∧ (runLoadJournalData s0 (.ok j) (.ok arts) (.error e)).sequenceIds = s0.sequenceIds
        ∧ (runLoadJournalData s0 (.ok j) (.ok arts) (.error e)).error = some e) ∧
    (∀ (s0 : JournalDetailsState) (j : Journal) (arts : List Article) (seqIds : List Int),
        runLoadJournalData s0 (.ok j) (.ok arts) (.ok seqIds)
          = { s0 with journal := some j, articles := arts, sequenceIds := seqIds,
                      loading := false, error := none }) ∧
    (∀ (s0 : ArticleViewState) (e : String) (rR : Except String (List Article))
        (rN : Except String ArticleNeighbors),
        (runLoadArticle s0 (.error e) rR rN).article = s0.article
        ∧ (runLoadArticle s0 (.error e) rR rN).titleById = s0.titleById
        ∧ (runLoadArticle s0 (.error e) rR rN).neighbors = s0.neighbors
        ∧ (runLoadArticle s0 (.error e) rR rN).error = some e) ∧
    (∀ (s0 : ArticleViewState) (art : Article) (e : String)
        (rN : Except String ArticleNeighbors),
        (runLoadArticle s0 (.ok art) (.error e) rN).article = some art
        ∧ (runLoadArticle s0 (.ok art) (.error e) rN).titleById = s0.titleById
        ∧ (runLoadArticle s0 (.ok art) (.error e) rN).previewById = s0.previewById
        ∧ (runLoadArticle s0 (.ok art) (.error e) rN).neighbors = s0.neighbors
        ∧ (runLoadArticle s0 (.ok art) (.error e) rN).error = some e) ∧
    (∀ (s0 : ArticleViewState) (art : Article) (rel : List Article)
        (nb : ArticleNeighbors),
        runLoadArticle s0 (.ok art) (.ok rel) (.ok nb)
          = { s0 with article := some art, titleById := titleMapOf rel,
                      previewById := previewMapOf rel, neighbors := nb,
                      loading := false, error := none }) := by
  refine ⟨?_, ?_, ?_, ?_, ?_, ?_, ?_⟩
  · intro s0 e rA rS
    cases rA <;> cases rS <;> exact ⟨rfl, rfl, rfl, rfl⟩
  · intro s0 j e rS
    cases rS <;> exact ⟨rfl, rfl, rfl, rfl⟩
  · intro s0 j arts e
    exact ⟨rfl, rfl, rfl, rfl⟩
  · intro s0 j arts seqIds
    rfl
  · intro s0 e rR rN
    cases rR <;> cases rN <;> exact ⟨rfl, rfl, rfl, rfl⟩
  · intro s0 art e rN
    cases rN <;> exact ⟨rfl, rfl, rfl, rfl, rfl⟩
  · intro s0 art rel nb
    rfl

/-- C8/C7 helper witnesses operate on concrete states below. -/
def sampleJournal : Journal := ⟨1, "J", "j"⟩

/-- C7 witness: a concrete journal-view load with a failed sequence request
leaves all three data fields untouched and reports the error; the all-ok
case stores everything. -/
theorem batched_load_spec_witness :
    (runLoadJournalData ⟨none, [], [], false, none⟩ (.ok sampleJournal)
        (.ok [articleA]) (.error "boom")).journal = none ∧
      (runLoadJournalData ⟨none, [], [], false, none⟩ (.ok sampleJournal)
        (.ok [articleA]) (.error "boom")).articles = [] ∧
      (runLoadJournalData ⟨none, [], [], false, none⟩ (.ok sampleJournal)
        (.ok [articleA]) (.error "boom")).sequenceIds = [] ∧
      (runLoadJournalData ⟨none, [], [], false, none⟩ (.ok sampleJournal)
        (.ok [articleA]) (.error "boom")).error = some "boom" := by
  have h := batched_load_spec.2.2.1 ⟨none, [], [], false, none⟩ sampleJournal
    [articleA] "boom"
  exact ⟨h.1, h.2.1, h.2.2.1, h.2.2.2⟩

/-! ## Edit Session Guard and navigation
(navigate, api.ts lines 841-850; setNavigationGuard/canLeavePage, lines
796-802; the guard effect of ArticleEditPage, lines 1411-1437; the
popstate handler of App, lines 1525-1531)

The process state visible to the guard logic: the current `path`, the edit
session's `hasUnsavedChangesRef` flag (`dirty`), and whether the edit
page's guard is registered.  `window.confirm`'s answer is an input. -/

structure NavState where
  path : String
  dirty : Bool
  guardActive : Bool
deriving DecidableEq, Repr

/-- The guard closure registered by ArticleEditPage: `true` when clean,
else the user's `window.confirm` answer. -/
def guardDecision (dirty confirmAnswer : Bool) : Bool :=
  if dirty then confirmAnswer else true

/-- `canLeavePage()`: consult the registered guard, default `true`. -/
def canLeavePage (s : NavState) (confirmAnswer : Bool) : Bool :=
  if s.guardActive then guardDecision s.dirty confirmAnswer else true

/-- `navigate(path)`: no-op on the same path; otherwise gated by the guard;
on success only the path changes (the dirty flag is untouched). -/
def navigate (s : NavState) (path : String) (confirmAnswer : Bool) : NavState :=
  if s.path = path then s
  else if !canLeavePage s confirmAnswer then s
  else { s with path := path }

/-- The `popstate` handler of `App`: a browser-history navigation to
`newPath` is reverted (`history.pushState` of the previous path, no
re-render) when the guard declines. -/
def handlePopState (s : NavState) (newPath : String) (confirmAnswer : Bool) : NavState :=
  if !canLeavePage s confirmAnswer then s
  else { s with path := newPath }

/-- C8: while the edit session is dirty and its guard registered, an in-app
navigation (or a browser-history navigation) with a declined confirmation
leaves the whole state unchanged — same path, still dirty; and the path can
only change when the confirmation was answered `yes`.  Navigation never
changes the dirty flag. -/
theorem navigate_guard_spec :
    (∀ (s : NavState) (target : String),
        s.dirty = true → s.guardActive = true →
        navigate s target false = s ∧ handlePopState s target false = s) ∧
    (∀ (s : NavState) (target : String) (ans : Bool),
        s.dirty = true → s.guardActive = true →
        (navigate s target ans).path ≠ s.path → ans = true) ∧
    (∀ (s : NavState) (target : String) (ans : Bool),
        (navigate s target ans).dirty = s.dirty) := by
  refine ⟨?_, ?_, ?_⟩
  · intro s target hd hg
    constructor
    · simp [navigate, canLeavePage, guardDecision, hd, hg]
    · simp [handlePopState, canLeavePage, guardDecision, hd, hg]
  · intro s target ans hd hg hpath
    by_contra hans
    have hans' : ans = false := by
      cases ans
      · rfl
      · exact absurd rfl hans
    subst hans'
    apply hpath
    simp [navigate, canLeavePage, guardDecision, hd, hg]
  · intro s target ans
    simp only [navigate]
    split
    · rfl
    · split
      · rfl
      · rfl

/-- C8 witness: a dirty, guarded edit session at `/articles/4/edit`
declines the confirmation: both in-app navigation and a history navigation
to `/journals` leave the state unchanged. -/
theorem navigate_guard_spec_witness :
    (⟨"/articles/4/edit", true, true⟩ : NavState).dirty = true ∧
      navigate ⟨"/articles/4/edit", true, true⟩ "/journals" false
        = ⟨"/articles/4/edit", true, true⟩ ∧
      handlePopState ⟨"/articles/4/edit", true, true⟩ "/journals" false
        = ⟨"/articles/4/edit", true, true⟩ := by
  have h := navigate_guard_spec.1 ⟨"/articles/4/edit", true, true⟩ "/journals" rfl rfl
  exact ⟨rfl, h.1, h.2⟩

end JournalApp
